import Mathlib

/-!
Verification of the account ingestion pipeline of the `self-learning` backend
(`backend/internal/ingestion/{fetcher,normalizer,types}.go` and
`backend/internal/models/{account,transaction}.go`).

The Go code is shallowly embedded: every store-mutating Go function becomes a
pure Lean function over an explicit state (the accounts table, the raw-snapshot
store, the in-memory job queue and the transactions table).  Timestamps are
modelled as integers (seconds); `time.Now()` becomes an explicit `now`
parameter.  Monetary amounts are only ever copied by the embedded code, never
computed with, so they are carried as integers standing for the raw payload.

GORM specifics that matter and are reflected here:
  * every query on a model with a `DeletedAt` field is implicitly restricted to
    non-deleted rows, so the embedded `table` holds exactly the live rows and
    the `deleted_at` column is dropped;
  * `Updates` with a `map[string]interface{}` issues a single SQL UPDATE whose
    SET list contains exactly the map's keys (plus the auto-touched
    `updated_at`); keys are NOT filtered against the model's schema, so a key
    naming a column that does not exist in the migrated table makes the whole
    statement fail and leaves every row unchanged (the `accounts` table is
    created by `AutoMigrate(&models.Account{})`, hence its column set is the
    field set of the `Account` struct);
  * `clause.OnConflict{Columns: provider_transaction_id, DoNothing: true}`
    skips a row exactly when some already-stored row (including rows inserted
    earlier in the same batch) has the same `provider_transaction_id`.
-/

namespace Ingestion

/-- Time values (unix seconds), standing in for Go `time.Time`. -/
abbrev Time := Int

/-- Go `time.Time` zero value, produced by `time.Parse` on failure. -/
def zeroTime : Time := 0

/-- Raw provider payload bytes, staged to the snapshot store. -/
abbrev RawBytes := String

/-- The `SyncStatus` enum of `models/account.go`. -/
inductive SyncStatus where
  | idle
  | pendingSync
  | syncing
  | fetched
  | failed
deriving DecidableEq, Repr

/-- The `models.Account` row (live rows only; see the header note on GORM
soft deletion).  `balance` is only copied by the embedded code, so its Go
`float64` is carried as an opaque integer payload. -/
structure Account where
  id : String
  userId : String
  provider : String
  externalAccountId : String
  balance : Int
  currency : String
  syncStatus : SyncStatus
  priority : Int
  lastSyncedCursor : Option Time
  lastUpdatedAt : Time
  lastSyncAttempt : Time
  createdAt : Time
  updatedAt : Time
deriving DecidableEq, Repr

/-- The `models.Transaction` row.  `amount` is an opaque integer payload for
the Go `float64` (never computed with by the embedded code). -/
structure Transaction where
  id : String
  accountId : String
  providerTransactionId : String
  amount : Int
  currency : String
  description : String
  merchantName : String
  category : String
  transactionDate : Time
  systemInsertedAt : Time
deriving DecidableEq, Repr

/-- The `ingestion.SyncJob` hand-off payload (`types.go`). -/
structure SyncJob where
  accountId : String
  cursor : Time
  s3Path : String
  fetchedAt : Time
deriving DecidableEq, Repr

/-- One decoded record of the mock bank's JSON array, the `BankTxn` local
struct of `parseTransactions` (`normalizer.go`).  `amount` is an opaque
integer payload for the Go `float64`. -/
structure BankTxn where
  id : String
  amount : Int
  merchant : String
  date : String
  currency : String
  status : String
deriving DecidableEq, Repr

/-- Column set of the `accounts` table as created by
`AutoMigrate(&models.Account{})` (`database.Connect`): exactly the fields of
the `Account` struct.  Note that `last_error` is NOT among them. -/
def accountColumns : List String :=
  ["id", "user_id", "provider", "external_account_id", "balance", "currency",
   "sync_status", "priority", "last_synced_cursor", "last_updated_at",
   "last_sync_attempt", "created_at", "updated_at", "deleted_at"]

/-- Effect of one SQL `UPDATE accounts SET <cols> ... ` on a single row that
matches the WHERE clause.  `cols` is the SET column list the GORM map update
generates and `f` is the row transformation those assignments denote; when a
column does not exist in the schema the whole statement fails (SQLite rejects
it at prepare time) and the row is unchanged. -/
def updateRowStatement (cols : List String) (f : Account → Account)
    (a : Account) : Account :=
  if cols.all (fun c => accountColumns.contains c) then f a else a

/-- Table-level effect of one SQL `UPDATE accounts SET <cols> WHERE p`. -/
def updateAccountsWhere (cols : List String) (f : Account → Account)
    (p : Account → Bool) (table : List Account) : List Account :=
  table.map (fun a => if p a then updateRowStatement cols f a else a)

/-! ## Fetcher: `stealWork` (fetcher.go lines 45-98) -/

/-- Eligibility predicate of the `stealWork` id subquery:
`sync_status = PENDING_SYNC`, or `sync_status = IDLE AND last_updated_at <
now - 6h`, or `sync_status = SYNCING AND last_sync_attempt < now - 1h`
(6h = 21600 s, 1h = 3600 s; strict `<` as in the SQL). -/
def eligibleB (now : Time) (a : Account) : Bool :=
  a.syncStatus == .pendingSync
    || (a.syncStatus == .idle && decide (a.lastUpdatedAt < now - 21600))
    || (a.syncStatus == .syncing && decide (a.lastSyncAttempt < now - 3600))

/-- The comparison behind `ORDER BY priority DESC`. -/
def prioGe (a b : Account) : Prop := b.priority ≤ a.priority

instance : DecidableRel prioGe := fun a b => Int.decLe b.priority a.priority

instance : IsTotal Account prioGe := ⟨fun a b => Int.le_total b.priority a.priority⟩

instance : IsTrans Account prioGe := ⟨fun _ _ _ hab hbc => le_trans hbc hab⟩

/-- The id-selection phase of `stealWork`: filter eligible rows, order by
priority descending, cap at the batch size 10 (`LIMIT 10`). -/
def stealWorkSelect (now : Time) (table : List Account) : List Account :=
  (List.insertionSort prioGe (table.filter (eligibleB now))).take 10

/-- Row effect of the `stealWork` lock update: `sync_status = SYNCING`,
`last_sync_attempt = now` (GORM auto-touches `updated_at`). -/
def lockRow (now : Time) (a : Account) : Account :=
  { a with syncStatus := .syncing, lastSyncAttempt := now, updatedAt := now }

/-- The atomic lock update of `stealWork` step B:
`UPDATE accounts SET sync_status, last_sync_attempt, updated_at WHERE id IN ids`. -/
def lockAccounts (ids : List String) (now : Time) (table : List Account) :
    List Account :=
  updateAccountsWhere ["sync_status", "last_sync_attempt", "updated_at"]
    (lockRow now) (fun a => ids.contains a.id) table

/-- The whole `stealWork` transaction: select eligible ids, lock them, and
re-read the locked rows.  Returns the updated table and the returned batch. -/
def stealWork (now : Time) (table : List Account) :
    List Account × List Account :=
  let ids := (stealWorkSelect now table).map (fun a => a.id)
  let table' := lockAccounts ids now table
  (table', table'.filter (fun a => ids.contains a.id))

/-! ## Fetcher: `processAccount` (fetcher.go lines 100-150) -/

/-- Shared mutable state of the pipeline: the live `accounts` rows, the raw
snapshot store (path to bytes), the in-memory job channel content, and the
`transactions` rows. -/
structure PipeState where
  table : List Account
  snapshots : List (String × RawBytes)
  queue : List SyncJob
  txStore : List Transaction
deriving DecidableEq, Repr

/-- Fetch window lower bound of `processAccount` step 1: `last_synced_cursor`
if present, else 90 days before now (90 * 24 * 3600 = 7776000 s). -/
def fetchWindowLowerBound (now : Time) (a : Account) : Time :=
  match a.lastSyncedCursor with
  | some c => c
  | none => now - 7776000

/-- Snapshot path rendered by `saveToLocalStorage`:
`storage/raw/<accountID>/<unix>.json`. -/
def s3PathFor (accountId : String) (now : Time) : String :=
  "storage/raw/" ++ accountId ++ "/" ++ toString now ++ ".json"

/-- Row effect the failure mark of `processAccount` step 2 would denote:
`sync_status = FAILED` (plus the auto-touched `updated_at`; the `last_error`
assignment has no Account field to land in). -/
def failRow (now : Time) (a : Account) : Account :=
  { a with syncStatus := .failed, updatedAt := now }

/-- The failure mark of `processAccount`:
`UPDATE accounts SET last_error, sync_status, updated_at WHERE id = ?`.
The `accounts` table has no `last_error` column, so the statement fails and
no row changes; the Go code discards the error. -/
def markFailedTable (accId : String) (now : Time) (table : List Account) :
    List Account :=
  updateAccountsWhere ["last_error", "sync_status", "updated_at"]
    (failRow now) (fun a => a.id == accId) table

/-- Row effect of the checkpoint of `processAccount` step 5:
`sync_status = FETCHED`, `priority = 10` (plus auto-touched `updated_at`). -/
def fetchedRow (now : Time) (a : Account) : Account :=
  { a with syncStatus := .fetched, priority := 10, updatedAt := now }

/-- The checkpoint update of `processAccount` step 5:
`UPDATE accounts SET priority, sync_status, updated_at WHERE id = ?`. -/
def markFetchedTable (accId : String) (now : Time) (table : List Account) :
    List Account :=
  updateAccountsWhere ["priority", "sync_status", "updated_at"]
    (fetchedRow now) (fun a => a.id == accId) table

/-- The job built by `processAccount` step 4 for account `a`: the cursor used
for the fetch, the snapshot path, and the fetch completion time. -/
def mkJob (a : Account) (now : Time) : SyncJob :=
  { accountId := a.id, cursor := fetchWindowLowerBound now a,
    s3Path := s3PathFor a.id now, fetchedAt := now }

/-- The `processAccount` body.  The external fetch outcome (`fetchRes`) and
the snapshot write outcome (`saveOk`) are the two fallible collaborators;
everything else is the Go control flow: on fetch error, run the (failing)
FAILED mark and stop; on success, stage the snapshot, enqueue the job, and
checkpoint the account as FETCHED with priority reset. -/
def processAccount (fetchRes : Except String RawBytes) (saveOk : Bool)
    (acc : Account) (now : Time) (st : PipeState) : PipeState :=
  match fetchRes with
  | .error _ => { st with table := markFailedTable acc.id now st.table }
  | .ok raw =>
    if saveOk then
      let path := s3PathFor acc.id now
      let job := mkJob acc now
      { st with
        snapshots := st.snapshots ++ [(path, raw)],
        queue := st.queue ++ [job],
        table := markFetchedTable acc.id now st.table }
    else st

/-! ## Normalizer (normalizer.go) -/

/-- One iteration of the conversion loop of `parseTransactions`: a decoded
`BankTxn` becomes a `models.Transaction`.  `parseDate` embeds
`time.Parse(time.RFC3339, ·)` (the ignored error makes a failed parse yield
the zero time), `uuidGen i` embeds the i-th `uuid.New()` of the loop, and
`sysNow` embeds the `time.Now()` stamped into `SystemInsertedAt`.
`Description` and `Category` are left at their zero values, as in the Go
struct literal. -/
def mkTransactionOfBank (parseDate : String → Option Time)
    (uuidGen : Nat → String) (sysNow : Time) (accountId : String)
    (i : Nat) (bt : BankTxn) : Transaction :=
  { id := uuidGen i, accountId := accountId,
    providerTransactionId := bt.id, amount := bt.amount,
    currency := bt.currency, description := "",
    merchantName := bt.merchant, category := "",
    transactionDate := (parseDate bt.date).getD zeroTime,
    systemInsertedAt := sysNow }

/-- The conversion loop of `parseTransactions`, with the running index that
feeds the uuid generator made explicit. -/
def normalizeRecordsFrom (parseDate : String → Option Time)
    (uuidGen : Nat → String) (sysNow : Time) (accountId : String) :
    Nat → List BankTxn → List Transaction
  | _, [] => []
  | i, bt :: rest =>
    mkTransactionOfBank parseDate uuidGen sysNow accountId i bt ::
      normalizeRecordsFrom parseDate uuidGen sysNow accountId (i + 1) rest

/-- The conversion loop of `parseTransactions` over a decoded record list. -/
def normalizeRecords (parseDate : String → Option Time)
    (uuidGen : Nat → String) (sysNow : Time) (accountId : String)
    (bts : List BankTxn) : List Transaction :=
  normalizeRecordsFrom parseDate uuidGen sysNow accountId 0 bts

/-- The whole `parseTransactions`: `json.Unmarshal` into `[]BankTxn`
(embedded as the external `unmarshal` collaborator) followed by the
conversion loop.  It propagates exactly the unmarshal error. -/
def parseTransactions (unmarshal : RawBytes → Except String (List BankTxn))
    (parseDate : String → Option Time) (uuidGen : Nat → String)
    (sysNow : Time) (accountId : String) (data : RawBytes) :
    Except String (List Transaction) :=
  match unmarshal data with
  | .error e => .error e
  | .ok bts => .ok (normalizeRecords parseDate uuidGen sysNow accountId bts)

/-- Conflict test of the `ON CONFLICT (provider_transaction_id) DO NOTHING`
clause backing `upsertTransactions`: the unique index `idx_provider_txn`
covers the single column `provider_transaction_id`. -/
def hasConflict (store : List Transaction) (t : Transaction) : Bool :=
  store.any (fun u => u.providerTransactionId == t.providerTransactionId)

/-- The `upsertTransactions` batch insert: rows are attempted in order; a row
whose `provider_transaction_id` is already stored (including by an earlier
row of the same batch) is skipped, otherwise appended. -/
def upsertTransactions (store : List Transaction)
    (txns : List Transaction) : List Transaction :=
  txns.foldl (fun s t => if hasConflict s t then s else s ++ [t]) store

/-- Row effect of `finalizeAccount`: `sync_status = IDLE`,
`last_synced_cursor = job.FetchedAt`, `last_updated_at = now`,
`priority = 10` (plus auto-touched `updated_at`). -/
def finalizeRow (job : SyncJob) (now : Time) (a : Account) : Account :=
  { a with
    syncStatus := .idle, lastSyncedCursor := some job.fetchedAt,
    lastUpdatedAt := now, priority := 10, updatedAt := now }

/-- The `finalizeAccount` update:
`UPDATE accounts SET last_synced_cursor, last_updated_at, priority,
sync_status, updated_at WHERE id = ?`.  All columns exist, so it applies. -/
def finalizeAccount (job : SyncJob) (now : Time) (table : List Account) :
    List Account :=
  updateAccountsWhere
    ["last_synced_cursor", "last_updated_at", "priority", "sync_status",
     "updated_at"]
    (finalizeRow job now) (fun a => a.id == job.accountId) table

/-- The `os.ReadFile(job.S3Path)` step of `processJob`, against the snapshot
store. -/
def readSnapshot (snapshots : List (String × RawBytes)) (path : String) :
    Except String RawBytes :=
  match snapshots.find? (fun p => p.1 == path) with
  | some p => .ok p.2
  | none => .error "no such file"

/-- The `processJob` body: load the snapshot, parse it, upsert the batch when
it is non-empty, and finalize the account; any earlier failure drops the job
with no state change. -/
def processJob (unmarshal : RawBytes → Except String (List BankTxn))
    (parseDate : String → Option Time) (uuidGen : Nat → String)
    (now : Time) (job : SyncJob) (st : PipeState) : PipeState :=
  match readSnapshot st.snapshots job.s3Path with
  | .error _ => st
  | .ok raw =>
    match parseTransactions unmarshal parseDate uuidGen now job.accountId raw with
    | .error _ => st
    | .ok txns =>
      let st1 :=
        if txns.length > 0 then
          { st with txStore := upsertTransactions st.txStore txns }
        else st
      { st1 with table := finalizeAccount job now st1.table }

/-! ## Per-account transition system

`cmd/server/main` (the unnamed server main) runs exactly one fetcher
goroutine and one normalizer goroutine sharing a buffered channel.  The
lifecycle of a single account is modelled as a labelled transition system
whose atomic steps are the individual store statements and channel operations
of the two loops, in their source order.  In particular `processAccount`
enqueues the job (step 4) BEFORE running the FETCHED checkpoint (step 5), so
the fetcher contributes two separate steps (`stage`, then `fetchMark`) and
the normalizer may run in between. -/

/-- Where the single fetcher goroutine stands in `processAccount` for this
account: not processing it, claimed-but-nothing-staged, or job enqueued with
the FETCHED checkpoint still pending. -/
inductive FetchPhase where
  | idle
  | claimed
  | enqueued
deriving DecidableEq, Repr

/-- State of one account's world: its live row, the fetcher's position, the
queued jobs for it, and the clock. -/
structure SysState where
  acc : Account
  phase : FetchPhase
  jobs : List SyncJob
  now : Time
deriving DecidableEq, Repr

/-- Names of the atomic steps. -/
inductive OpLabel where
  | claimOp
  | fetchFailOp
  | stageOp
  | fetchMarkOp
  | normalizeOp
  | dropJobOp
  | restartOp
  | clockOp
deriving DecidableEq, Repr

/-- Row effect of the `stealWork` lock statement at a selected row. -/
def claimRowUpd (now : Time) (a : Account) : Account :=
  updateRowStatement ["sync_status", "last_sync_attempt", "updated_at"]
    (lockRow now) a

/-- Row effect of the `processAccount` failure-mark statement at its row
(the statement fails; see `markFailedTable`). -/
def failRowUpd (now : Time) (a : Account) : Account :=
  updateRowStatement ["last_error", "sync_status", "updated_at"]
    (failRow now) a

/-- Row effect of the `processAccount` FETCHED checkpoint at its row. -/
def fetchedRowUpd (now : Time) (a : Account) : Account :=
  updateRowStatement ["priority", "sync_status", "updated_at"]
    (fetchedRow now) a

/-- Row effect of the `finalizeAccount` statement at its row. -/
def finalizeRowUpd (job : SyncJob) (now : Time) (a : Account) : Account :=
  updateRowStatement
    ["last_synced_cursor", "last_updated_at", "priority", "sync_status",
     "updated_at"]
    (finalizeRow job now) a

/-- Atomic steps of the two loops for one account.
`claim`: the `stealWork` transaction selects and locks the (eligible)
account.  `fetchFail`: the fetch errors and the failure mark runs (the
save-error early return of step 3 performs the same null state change).
`stage`: the snapshot is written and the job pushed to the channel.
`fetchMark`: the FETCHED checkpoint runs.  `normalize`: the normalizer pops
the oldest job and `processJob` succeeds through `finalizeAccount`.
`dropJob`: the normalizer pops a job and drops it (read/parse/upsert error).
`restart`: the process crashes and restarts — in-memory phase and queue are
lost, the store survives.  `clock`: time passes. -/
inductive Step : SysState → OpLabel → SysState → Prop where
  | claim (s : SysState) (hph : s.phase = .idle)
      (helig : eligibleB s.now s.acc = true) :
      Step s .claimOp
        { s with acc := claimRowUpd s.now s.acc, phase := .claimed }
  | fetchFail (s : SysState) (hph : s.phase = .claimed) :
      Step s .fetchFailOp
        { s with acc := failRowUpd s.now s.acc, phase := .idle }
  | stage (s : SysState) (hph : s.phase = .claimed) :
      Step s .stageOp
        { s with jobs := s.jobs ++ [mkJob s.acc s.now], phase := .enqueued }
  | fetchMark (s : SysState) (hph : s.phase = .enqueued) :
      Step s .fetchMarkOp
        { s with acc := fetchedRowUpd s.now s.acc, phase := .idle }
  | normalize (s : SysState) (j : SyncJob) (rest : List SyncJob)
      (hj : s.jobs = j :: rest) :
      Step s .normalizeOp
        { s with acc := finalizeRowUpd j s.now s.acc, jobs := rest }
  | dropJob (s : SysState) (j : SyncJob) (rest : List SyncJob)
      (hj : s.jobs = j :: rest) :
      Step s .dropJobOp { s with jobs := rest }
  | restart (s : SysState) :
      Step s .restartOp { s with phase := .idle, jobs := [] }
  | clock (s : SysState) (t : Time) (h : s.now ≤ t) :
      Step s .clockOp { s with now := t }

/-- Accounts enter the system `IDLE` or `PENDING_SYNC` (provisioning or
seeding), with the fetcher not holding them and the queue empty. -/
def InitState (s : SysState) : Prop :=
  (s.acc.syncStatus = .idle ∨ s.acc.syncStatus = .pendingSync)
    ∧ s.phase = .idle ∧ s.jobs = []

/-- Reachability under the free interleaving of the two loops. -/
inductive Reach : SysState → Prop where
  | init (s : SysState) (h : InitState s) : Reach s
  | next (s : SysState) (l : OpLabel) (s' : SysState) (hr : Reach s)
      (hs : Step s l s') : Reach s'

/-- The interleaving restricted so the normalizer consumes a job only after
the fetcher has completed the FETCHED checkpoint for it (the intended
spec §4.2 ordering). -/
def SeqStep (s : SysState) (l : OpLabel) (s' : SysState) : Prop :=
  Step s l s' ∧
    ((l = .normalizeOp ∨ l = .dropJobOp) → s.phase ≠ .enqueued)

/-- Reachability under the checkpoint-respecting interleaving. -/
inductive ReachSeq : SysState → Prop where
  | init (s : SysState) (h : InitState s) : ReachSeq s
  | next (s : SysState) (l : OpLabel) (s' : SysState) (hr : ReachSeq s)
      (hs : SeqStep s l s') : ReachSeq s'

/-- Edge set of the §4.3 sync-status transition table. -/
def tableEdge (p n : SyncStatus) : Prop :=
  ((p = .idle ∨ p = .pendingSync ∨ p = .syncing) ∧ n = .syncing)
    ∨ (p = .syncing ∧ n = .fetched)
    ∨ (p = .syncing ∧ n = .failed)
    ∨ (p = .fetched ∧ n = .idle)

/-- Inductive invariant of the checkpoint-respecting interleaving: while the
fetcher holds the account (claimed or enqueued) its row is `SYNCING`, and
before anything is staged nothing is queued; a queued job means the account
is already checkpointed `FETCHED` unless the checkpoint is the pending next
fetcher step; at most one job is ever in flight. -/
def Inv (s : SysState) : Prop :=
  (s.phase = .claimed → s.acc.syncStatus = .syncing ∧ s.jobs = []) ∧
  (s.phase = .enqueued → s.acc.syncStatus = .syncing) ∧
  (s.jobs ≠ [] → s.phase = .enqueued ∨
    (s.phase = .idle ∧ s.acc.syncStatus = .fetched)) ∧
  s.jobs.length ≤ 1

/-! ## Concrete fixtures for closed instances -/

/-- An account row with the sync-relevant fields as parameters and fixed
identity/payload fields, used to build concrete instances. -/
def mkAcc (id : String) (st : SyncStatus) (prio : Int) (lua lsa : Time)
    (cursor : Option Time) : Account :=
  { id := id, userId := "u1", provider := "mock", externalAccountId := id,
    balance := 0, currency := "ILS", syncStatus := st, priority := prio,
    lastSyncedCursor := cursor, lastUpdatedAt := lua, lastSyncAttempt := lsa,
    createdAt := 0, updatedAt := 0 }

/-- A claimed (`SYNCING`) account whose external fetch is about to fail. -/
def errAcc : Account := mkAcc "a1" .syncing 10 0 500 none

/-- Pipeline state holding just `errAcc`. -/
def errSt : PipeState :=
  { table := [errAcc], snapshots := [], queue := [], txStore := [] }

/-- A job whose snapshot sits at path `"p"`. -/
def wJob : SyncJob := ⟨"a1", 0, "p", 90⟩

/-- Pipeline state with one `FETCHED` account and one staged snapshot. -/
def wSt : PipeState :=
  { table := [mkAcc "a1" .fetched 10 0 0 none], snapshots := [("p", "raw")],
    queue := [], txStore := [] }

/-- An unmarshal collaborator that decodes every payload to an empty array. -/
def umEmpty : RawBytes → Except String (List BankTxn) := fun _ => .ok []

/-- A date parser that fails on every input, as `time.Parse` does on a
non-RFC3339 string. -/
def pdNone : String → Option Time := fun _ => none

/-- A deterministic stand-in for the uuid generator. -/
def ugT : Nat → String := fun i => "uuid-" ++ toString i

/-- A decoded bank record whose date field is not valid RFC3339. -/
def badRecord : BankTxn := ⟨"tx-1", -150, "Mock Purchase", "not-a-date", "ILS", "SETTLED"⟩

/-- An unmarshal collaborator that decodes every payload to the one bad
record. -/
def umBad : RawBytes → Except String (List BankTxn) := fun _ => .ok [badRecord]

/-- First decoded record of a concrete snapshot. -/
def recA : BankTxn := ⟨"tx-1", -150, "m1", "2024-01-01T00:00:00Z", "ILS", "SETTLED"⟩

/-- Second decoded record of a concrete snapshot. -/
def recB : BankTxn := ⟨"tx-2", -45, "m2", "2024-01-01T00:00:00Z", "ILS", "PENDING"⟩

/-- An `IDLE` account 7 h stale at clock 100000 (eligible). -/
def accStale : Account := mkAcc "a7" .idle 50 (100000 - 25200) 0 none

/-- An `IDLE` account only 5 h stale at clock 100000 (not eligible). -/
def accFresh : Account := mkAcc "a5" .idle 60 (100000 - 18000) 0 none

/-- A `PENDING_SYNC` account (always eligible). -/
def accPend : Account := mkAcc "ap" .pendingSync 100 0 0 none

/-- A `FAILED` account (never eligible). -/
def accFail : Account := mkAcc "af" .failed 999 0 0 none

/-- Eleven `PENDING_SYNC` accounts with priorities 0..10 — one more than the
batch size, so the priority-0 one is left behind. -/
def manyAccs : List Account :=
  (List.range 11).map
    (fun i => mkAcc ("b" ++ toString i) .pendingSync (Int.ofNat i) 0 0 none)

/-- A `PENDING_SYNC` account about to be claimed. -/
def cexAcc : Account := mkAcc "acc-1" .pendingSync 100 0 0 none

/-- World before the claim. -/
def cexS0 : SysState := { acc := cexAcc, phase := .idle, jobs := [], now := 1000 }

/-- World after the `stealWork` claim. -/
def cexS1 : SysState :=
  { acc := claimRowUpd 1000 cexAcc, phase := .claimed, jobs := [], now := 1000 }

/-- World after the fetcher staged the snapshot and pushed the job, with the
FETCHED checkpoint still pending. -/
def cexS2 : SysState :=
  { acc := claimRowUpd 1000 cexAcc, phase := .enqueued,
    jobs := [mkJob (claimRowUpd 1000 cexAcc) 1000], now := 1000 }

/-- World after the normalizer finalized the job before the checkpoint ran. -/
def cexS3 : SysState :=
  { acc := finalizeRowUpd (mkJob (claimRowUpd 1000 cexAcc) 1000) 1000
      (claimRowUpd 1000 cexAcc),
    phase := .enqueued, jobs := [], now := 1000 }

/-! ## Helper lemmas -/

/-- A matching row of an applicable UPDATE lands in the updated table as the
transformed row. -/
theorem mem_updateAccountsWhere_of_mem (cols : List String)
    (f : Account → Account) (p : Account → Bool) {table : List Account}
    {a : Account} (ha : a ∈ table) (hp : p a = true) :
    updateRowStatement cols f a ∈ updateAccountsWhere cols f p table := by
  unfold updateAccountsWhere
  have h := List.mem_map_of_mem
    (fun x => if p x then updateRowStatement cols f x else x) ha
  simpa [hp] using h

/-- The row matching a job lands in the finalized table as just-finalized:
`IDLE`, cursor advanced to the job's fetch time, `last_updated_at` stamped,
priority reset. -/
theorem finalizeAccount_mem_idle (job : SyncJob) (now : Time)
    (table : List Account) (a : Account) (ha : a ∈ table)
    (hid : a.id = job.accountId) :
    ∃ b ∈ finalizeAccount job now table,
      b.id = job.accountId ∧ b.syncStatus = .idle ∧
      b.lastSyncedCursor = some job.fetchedAt ∧ b.lastUpdatedAt = now ∧
      b.priority = 10 := by
  refine ⟨finalizeRow job now a, ?_, ?_, rfl, rfl, rfl, rfl⟩
  · have hp : (a.id == job.accountId) = true := by simp [hid]
    exact mem_updateAccountsWhere_of_mem _ (finalizeRow job now) _ ha hp
  · exact hid

/-- The conversion loop preserves the record count (no record is dropped,
whatever its date field holds). -/
theorem length_normalizeRecordsFrom (pd : String → Option Time)
    (ug : Nat → String) (t : Time) (aid : String) :
    ∀ (n : Nat) (bts : List BankTxn),
      (normalizeRecordsFrom pd ug t aid n bts).length = bts.length
  | _, [] => rfl
  | n, _ :: rest => by
    simp [normalizeRecordsFrom,
      length_normalizeRecordsFrom pd ug t aid (n + 1) rest]

/-- Every decoded record yields a member of the converted batch. -/
theorem exists_mem_normalizeRecordsFrom (pd : String → Option Time)
    (ug : Nat → String) (t : Time) (aid : String) (bt : BankTxn) :
    ∀ (n : Nat) (bts : List BankTxn), bt ∈ bts →
      ∃ i, mkTransactionOfBank pd ug t aid i bt
        ∈ normalizeRecordsFrom pd ug t aid n bts := by
  intro n bts
  induction bts generalizing n with
  | nil => intro h; cases h
  | cons b rest ih =>
    intro h
    rcases List.mem_cons.mp h with hb | hr
    · subst hb
      exact ⟨n, List.mem_cons_self _ _⟩
    · obtain ⟨i, hi⟩ := ih (n + 1) hr
      exact ⟨i, List.mem_cons_of_mem _ hi⟩

/-- `processJob` with a readable snapshot and a non-empty decoded batch
upserts the converted batch and finalizes the account. -/
theorem processJob_eq_of_parse_pos
    (um : RawBytes → Except String (List BankTxn))
    (pd : String → Option Time) (ug : Nat → String) (now : Time)
    (job : SyncJob) (st : PipeState) (raw : RawBytes) (bts : List BankTxn)
    (hread : readSnapshot st.snapshots job.s3Path = .ok raw)
    (hum : um raw = .ok bts) (hne : bts ≠ []) :
    processJob um pd ug now job st
      = { st with
          txStore := upsertTransactions st.txStore
            (normalizeRecords pd ug now job.accountId bts),
          table := finalizeAccount job now st.table } := by
  have hlen : 0 < (normalizeRecords pd ug now job.accountId bts).length := by
    unfold normalizeRecords
    rw [length_normalizeRecordsFrom]
    exact List.length_pos.mpr hne
  simp only [processJob, parseTransactions, hread, hum]
  rw [if_pos hlen]

/-- `processJob` with a readable snapshot and an empty decoded batch skips
the upsert and still finalizes the account. -/
theorem processJob_eq_of_parse_nil
    (um : RawBytes → Except String (List BankTxn))
    (pd : String → Option Time) (ug : Nat → String) (now : Time)
    (job : SyncJob) (st : PipeState) (raw : RawBytes)
    (hread : readSnapshot st.snapshots job.s3Path = .ok raw)
    (hum : um raw = .ok []) :
    processJob um pd ug now job st
      = { st with table := finalizeAccount job now st.table } := by
  simp only [processJob, parseTransactions, hread, hum]
  rfl

/-- `hasConflict` holds exactly when some stored row carries the same
`provider_transaction_id`. -/
theorem hasConflict_iff (store : List Transaction) (t : Transaction) :
    hasConflict store t = true
      ↔ ∃ u ∈ store,
          u.providerTransactionId = t.providerTransactionId := by
  simp [hasConflict, List.any_eq_true]

/-- Unfolding of the batch insert on a cons. -/
theorem upsert_cons (store : List Transaction) (t : Transaction)
    (rest : List Transaction) :
    upsertTransactions store (t :: rest)
      = upsertTransactions
          (if hasConflict store t then store else store ++ [t]) rest := rfl

/-- An insert-or-ignore batch only appends: stored rows are never touched. -/
theorem upsert_append_decomp :
    ∀ (txns store : List Transaction),
      ∃ added, upsertTransactions store txns = store ++ added := by
  intro txns
  induction txns with
  | nil => exact fun store => ⟨[], by simp [upsertTransactions]⟩
  | cons t rest ih =>
    intro store
    rw [upsert_cons]
    by_cases h : hasConflict store t = true
    · rw [if_pos h]; exact ih store
    · rw [if_neg h]
      obtain ⟨added, ha⟩ := ih (store ++ [t])
      exact ⟨t :: added, by simp [ha]⟩

/-- The stored key set after a batch insert is the union of the old key set
and the batch's key set. -/
theorem upsert_keys_toFinset :
    ∀ (txns store : List Transaction),
      ((upsertTransactions store txns).map
          (fun u => u.providerTransactionId)).toFinset
        = (store.map (fun u => u.providerTransactionId)).toFinset
            ∪ (txns.map (fun u => u.providerTransactionId)).toFinset := by
  intro txns
  induction txns with
  | nil => intro store; simp [upsertTransactions]
  | cons t rest ih =>
    intro store
    rw [upsert_cons]
    by_cases h : hasConflict store t = true
    · rw [if_pos h, ih store]
      obtain ⟨u, hu, he⟩ := (hasConflict_iff store t).mp h
      have hmem : t.providerTransactionId
          ∈ (store.map (fun u => u.providerTransactionId)).toFinset :=
        List.mem_toFinset.mpr (he ▸ List.mem_map_of_mem _ hu)
      ext x
      simp only [List.map_cons, List.toFinset_cons, Finset.mem_union,
        Finset.mem_insert]
      constructor
      · rintro (hx | hx)
        · exact Or.inl hx
        · exact Or.inr (Or.inr hx)
      · rintro (hx | hx | hx)
        · exact Or.inl hx
        · subst hx; exact Or.inl hmem
        · exact Or.inr hx
    · rw [if_neg h, ih (store ++ [t])]
      simp [List.map_append, List.toFinset_append, Finset.union_assoc,
        Finset.insert_eq]

/-- A batch insert into a store with duplicate-free keys keeps the keys
duplicate-free. -/
theorem upsert_keys_nodup :
    ∀ (txns store : List Transaction),
      (store.map (fun u => u.providerTransactionId)).Nodup →
      ((upsertTransactions store txns).map
          (fun u => u.providerTransactionId)).Nodup := by
  intro txns
  induction txns with
  | nil => intro store h; simpa [upsertTransactions] using h
  | cons t rest ih =>
    intro store h
    rw [upsert_cons]
    by_cases hc : hasConflict store t = true
    · rw [if_pos hc]; exact ih store h
    · rw [if_neg hc]
      apply ih
      rw [List.map_append]
      refine List.Nodup.append h (by simp) ?_
      intro x hx hx'
      simp only [List.map_cons, List.map_nil, List.mem_singleton] at hx'
      subst hx'
      obtain ⟨u, hu, he⟩ := List.mem_map.mp hx
      exact hc ((hasConflict_iff store t).mpr ⟨u, hu, he⟩)

/-- A batch whose every key is already stored is skipped wholesale. -/
theorem upsert_skip_of_key_mem :
    ∀ (txns store : List Transaction),
      (∀ t ∈ txns, ∃ u ∈ store,
          u.providerTransactionId = t.providerTransactionId) →
      upsertTransactions store txns = store := by
  intro txns
  induction txns with
  | nil => intro store _; rfl
  | cons t rest ih =>
    intro store h
    rw [upsert_cons,
      if_pos ((hasConflict_iff store t).mpr (h t (List.mem_cons_self _ _)))]
    exact ih store (fun x hx => h x (List.mem_cons_of_mem _ hx))

/-- Pairing every element with one fixed first component does not change the
number of distinct elements. -/
theorem dedup_length_map_pair (c : String) :
    ∀ (l : List String),
      ((l.map (fun x => (c, x))).dedup).length = l.dedup.length := by
  intro l
  induction l with
  | nil => rfl
  | cons x rest ih =>
    by_cases hx : x ∈ rest
    · have hm : (c, x) ∈ rest.map (fun y => (c, y)) :=
        List.mem_map_of_mem _ hx
      simp only [List.map_cons, List.dedup_cons_of_mem hm,
        List.dedup_cons_of_mem hx, ih]
    · have hm : (c, x) ∉ rest.map (fun y => (c, y)) := by
        simp only [List.mem_map, not_exists]
        rintro y ⟨hy, hxy⟩
        exact hx (by cases hxy; exact hy)
      simp only [List.map_cons, List.dedup_cons_of_not_mem hm,
        List.dedup_cons_of_not_mem hx, List.length_cons, ih]

/-- The converted batch's dedup keys are the records' provider ids. -/
theorem map_key_normalizeRecordsFrom (pd : String → Option Time)
    (ug : Nat → String) (t : Time) (aid : String) :
    ∀ (n : Nat) (bts : List BankTxn),
      (normalizeRecordsFrom pd ug t aid n bts).map
          (fun tx => tx.providerTransactionId)
        = bts.map (fun b => b.id)
  | _, [] => rfl
  | n, _ :: rest => by
    simp [normalizeRecordsFrom, mkTransactionOfBank,
      map_key_normalizeRecordsFrom pd ug t aid (n + 1) rest]

/-- The converted batch's natural keys pair the one account id with the
records' provider ids. -/
theorem map_pair_normalizeRecordsFrom (pd : String → Option Time)
    (ug : Nat → String) (t : Time) (aid : String) :
    ∀ (n : Nat) (bts : List BankTxn),
      (normalizeRecordsFrom pd ug t aid n bts).map
          (fun tx => (tx.accountId, tx.providerTransactionId))
        = bts.map (fun b => (aid, b.id))
  | _, [] => rfl
  | n, _ :: rest => by
    simp [normalizeRecordsFrom, mkTransactionOfBank,
      map_pair_normalizeRecordsFrom pd ug t aid (n + 1) rest]

/-! ## Claim theorems -/

/-- C4: On successful normalization of a job, `finalizeAccount` sets the
account's `sync_status` to `IDLE`, sets `last_synced_cursor` to the job's
`FetchedAt` timestamp (the fetch completion time stamped by the fetcher, not
the business timestamp of any transaction), sets `last_updated_at` to the
current time, and resets `priority` to the default 10. -/
theorem finalizeAccount_finalizes (job : SyncJob) (now : Time)
    (table : List Account) (a : Account) (ha : a ∈ table)
    (hid : a.id = job.accountId) :
    ∃ b ∈ finalizeAccount job now table,
      b.id = job.accountId ∧ b.syncStatus = .idle ∧
      b.lastSyncedCursor = some job.fetchedAt ∧ b.lastUpdatedAt = now ∧
      b.priority = 10 :=
  finalizeAccount_mem_idle job now table a ha hid

/-- Closed instance of `finalizeAccount_finalizes` at a concrete row and
job. -/
theorem finalizeAccount_finalizes_witness :
    mkAcc "a1" .fetched 10 0 0 none ∈ [mkAcc "a1" .fetched 10 0 0 none] ∧
    (mkAcc "a1" .fetched 10 0 0 none).id = "a1" ∧
    ∃ b ∈ finalizeAccount ⟨"a1", 40, "p", 90⟩ 200
        [mkAcc "a1" .fetched 10 0 0 none],
      b.id = "a1" ∧ b.syncStatus = .idle ∧ b.lastSyncedCursor = some 90 ∧
      b.lastUpdatedAt = 200 ∧ b.priority = 10 :=
  ⟨List.mem_singleton.mpr rfl, rfl,
    finalizeAccount_finalizes ⟨"a1", 40, "p", 90⟩ 200 _ _
      (List.mem_singleton.mpr rfl) rfl⟩

/-- C6: when the external fetch fails for a claimed account, `processAccount`
writes no raw snapshot and enqueues no job — but, contrary to the claim, it
does NOT mark the account `FAILED`: the failure mark is an UPDATE whose SET
list contains the column `last_error`, which `AutoMigrate(&models.Account{})`
never created, so the statement fails, the (discarded) error is the only
outcome, and the account stays `SYNCING`.  Evaluated here at a concrete
claimed account: the whole pipeline state is unchanged. -/
theorem processAccount_fetchError_no_state_change :
    processAccount (.error "dial tcp: connection refused") true errAcc 1000
        errSt = errSt ∧
    (processAccount (.error "dial tcp: connection refused") true errAcc 1000
        errSt).table.map (fun a => a.syncStatus) = [.syncing] := by
  constructor
  · rfl
  · rfl

/-- C7: for every claimed account, the fetch window lower bound that
`processAccount` computes and ships in the enqueued job equals the account's
`last_synced_cursor` when present, and `now` minus 90 days (7776000 s) when
the account has no prior cursor. -/
theorem processAccount_fetch_window (raw : RawBytes) (acc : Account)
    (now : Time) (st : PipeState) :
    (processAccount (.ok raw) true acc now st).queue
        = st.queue ++ [mkJob acc now] ∧
    (mkJob acc now).cursor
        = (match acc.lastSyncedCursor with
           | some c => c
           | none => now - 7776000) := by
  exact ⟨rfl, rfl⟩

/-- C9: `parseTransactions` fails exactly when the raw payload does not
decode as an array of bank records; a record whose date field `time.Parse`
rejects is still converted (into a transaction carrying the zero time), and
a job whose batch has unparseable dates is upserted and finalized rather
than dropped. -/
theorem parseTransactions_tolerates_bad_dates
    (um : RawBytes → Except String (List BankTxn))
    (pd : String → Option Time) (ug : Nat → String) (now : Time) :
    (∀ aid data e, um data = .error e →
        parseTransactions um pd ug now aid data = .error e) ∧
    (∀ aid data bts, um data = .ok bts →
        parseTransactions um pd ug now aid data
          = .ok (normalizeRecords pd ug now aid bts)) ∧
    (∀ aid bts bt, bt ∈ bts → pd bt.date = none →
        ∃ tx ∈ normalizeRecords pd ug now aid bts,
          tx.providerTransactionId = bt.id ∧ tx.transactionDate = zeroTime) ∧
    (∀ job st raw bts,
        readSnapshot st.snapshots job.s3Path = .ok raw →
        um raw = .ok bts → bts ≠ [] →
        (processJob um pd ug now job st).txStore
            = upsertTransactions st.txStore
                (normalizeRecords pd ug now job.accountId bts) ∧
        (processJob um pd ug now job st).table
            = finalizeAccount job now st.table) := by
  refine ⟨?_, ?_, ?_, ?_⟩
  · intro aid data e h
    simp [parseTransactions, h]
  · intro aid data bts h
    simp [parseTransactions, h]
  · intro aid bts bt hmem hdate
    obtain ⟨i, hi⟩ := exists_mem_normalizeRecordsFrom pd ug now aid bt 0 bts hmem
    exact ⟨mkTransactionOfBank pd ug now aid i bt, hi, rfl, by
      simp [mkTransactionOfBank, hdate]⟩
  · intro job st raw bts hread hum hne
    rw [processJob_eq_of_parse_pos um pd ug now job st raw bts hread hum hne]
    exact ⟨rfl, rfl⟩

/-- Closed instance of `parseTransactions_tolerates_bad_dates`: a record with
date `"not-a-date"` still reaches the store and the account is finalized. -/
theorem parseTransactions_tolerates_bad_dates_witness :
    badRecord ∈ [badRecord] ∧ pdNone badRecord.date = none ∧
    (∃ tx ∈ normalizeRecords pdNone ugT 200 "a1" [badRecord],
        tx.providerTransactionId = "tx-1" ∧ tx.transactionDate = zeroTime) ∧
    readSnapshot wSt.snapshots wJob.s3Path = .ok "raw" ∧
    umBad "raw" = .ok [badRecord] ∧ ([badRecord] : List BankTxn) ≠ [] ∧
    (processJob umBad pdNone ugT 200 wJob wSt).txStore
        = upsertTransactions wSt.txStore
            (normalizeRecords pdNone ugT 200 wJob.accountId [badRecord]) ∧
    (processJob umBad pdNone ugT 200 wJob wSt).table
        = finalizeAccount wJob 200 wSt.table := by
  have h := parseTransactions_tolerates_bad_dates umBad pdNone ugT 200
  have h4 := h.2.2.2 wJob wSt "raw" [badRecord] rfl rfl (by decide)
  exact ⟨List.mem_singleton.mpr rfl, rfl,
    h.2.2.1 "a1" [badRecord] badRecord (List.mem_singleton.mpr rfl) rfl,
    rfl, rfl, by decide, h4.1, h4.2⟩

/-- C10: a job whose snapshot loads and parses to an empty record list skips
the upsert entirely and still finalizes the account: `sync_status` becomes
`IDLE`, the cursor advances to the job's `FetchedAt`, `last_updated_at` is
stamped and priority is reset, with no transaction written. -/
theorem processJob_emptyBatch_finalizes
    (um : RawBytes → Except String (List BankTxn))
    (pd : String → Option Time) (ug : Nat → String) (now : Time)
    (job : SyncJob) (st : PipeState) (raw : RawBytes)
    (hread : readSnapshot st.snapshots job.s3Path = .ok raw)
    (hum : um raw = .ok []) :
    (processJob um pd ug now job st).txStore = st.txStore ∧
    (processJob um pd ug now job st).table
        = finalizeAccount job now st.table ∧
    ∀ a ∈ st.table, a.id = job.accountId →
      ∃ b ∈ (processJob um pd ug now job st).table,
        b.id = job.accountId ∧ b.syncStatus = .idle ∧
        b.lastSyncedCursor = some job.fetchedAt ∧ b.lastUpdatedAt = now ∧
        b.priority = 10 := by
  have hpj : processJob um pd ug now job st
      = { st with table := finalizeAccount job now st.table } :=
    processJob_eq_of_parse_nil um pd ug now job st raw hread hum
  refine ⟨by rw [hpj], by rw [hpj], ?_⟩
  intro a ha hid
  rw [hpj]
  exact finalizeAccount_mem_idle job now st.table a ha hid

/-- Closed instance of `processJob_emptyBatch_finalizes` at a one-account
store and an empty decoded batch. -/
theorem processJob_emptyBatch_finalizes_witness :
    readSnapshot wSt.snapshots wJob.s3Path = .ok "raw" ∧
    umEmpty "raw" = .ok [] ∧
    ((processJob umEmpty pdNone ugT 200 wJob wSt).txStore = wSt.txStore ∧
     (processJob umEmpty pdNone ugT 200 wJob wSt).table
        = finalizeAccount wJob 200 wSt.table ∧
     ∀ a ∈ wSt.table, a.id = wJob.accountId →
      ∃ b ∈ (processJob umEmpty pdNone ugT 200 wJob wSt).table,
        b.id = wJob.accountId ∧ b.syncStatus = .idle ∧
        b.lastSyncedCursor = some wJob.fetchedAt ∧ b.lastUpdatedAt = 200 ∧
        b.priority = 10) :=
  ⟨rfl, rfl,
    processJob_emptyBatch_finalizes umEmpty pdNone ugT 200 wJob wSt "raw"
      rfl rfl⟩

/-- C1: for a raw snapshot parsing to N records with R distinct natural keys
(account id, provider transaction id) — R ≤ N since every parsed record
carries the job's one account id — upserting the parsed batch twice stores
exactly R transactions; a transaction whose natural key is already stored is
skipped as a no-op, and an upsert never rewrites or removes stored rows. -/
theorem upsertTransactions_idempotent_dedup (pd : String → Option Time)
    (ug : Nat → String) (sysNow : Time) (aid : String)
    (bts : List BankTxn) :
    let txns := normalizeRecords pd ug sysNow aid bts
    let nkeys := txns.map (fun t => (t.accountId, t.providerTransactionId))
    let once := upsertTransactions [] txns
    once.length = nkeys.dedup.length ∧
    nkeys.dedup.length ≤ bts.length ∧
    upsertTransactions once txns = once ∧
    (∀ (store : List Transaction) (t : Transaction),
        (∃ u ∈ store, u.accountId = t.accountId ∧
          u.providerTransactionId = t.providerTransactionId) →
        upsertTransactions store [t] = store) ∧
    (∀ store, ∃ added, upsertTransactions store txns = store ++ added) := by
  intro txns nkeys once
  have hkey : txns.map (fun tx => tx.providerTransactionId)
      = bts.map (fun b => b.id) :=
    map_key_normalizeRecordsFrom pd ug sysNow aid 0 bts
  have hpair : nkeys = bts.map (fun b => (aid, b.id)) :=
    map_pair_normalizeRecordsFrom pd ug sysNow aid 0 bts
  have hR : nkeys.dedup.length = (bts.map (fun b => b.id)).dedup.length := by
    rw [hpair, show bts.map (fun b => (aid, b.id))
        = (bts.map (fun b => b.id)).map (fun x => (aid, x)) from
      (List.map_map _ _ _).symm]
    exact dedup_length_map_pair aid (bts.map (fun b => b.id))
  have hnd : (once.map (fun u => u.providerTransactionId)).Nodup :=
    upsert_keys_nodup txns [] (by simp)
  have hfin : (once.map (fun u => u.providerTransactionId)).toFinset
      = (txns.map (fun u => u.providerTransactionId)).toFinset := by
    rw [upsert_keys_toFinset txns []]
    simp
  refine ⟨?_, ?_, ?_, ?_, fun store => upsert_append_decomp txns store⟩
  · calc once.length
        = (once.map (fun u => u.providerTransactionId)).length :=
          (List.length_map _ _).symm
      _ = (once.map (fun u => u.providerTransactionId)).dedup.length := by
          rw [List.Nodup.dedup hnd]
      _ = (once.map (fun u => u.providerTransactionId)).toFinset.card :=
          (List.card_toFinset _).symm
      _ = (txns.map (fun u => u.providerTransactionId)).toFinset.card := by
          rw [hfin]
      _ = (txns.map (fun u => u.providerTransactionId)).dedup.length :=
          List.card_toFinset _
      _ = (bts.map (fun b => b.id)).dedup.length := by rw [hkey]
      _ = nkeys.dedup.length := hR.symm
  · calc nkeys.dedup.length ≤ nkeys.length := (List.dedup_sublist _).length_le
      _ = bts.length := by rw [hpair, List.length_map]
  · apply upsert_skip_of_key_mem
    intro t ht
    have hmem : t.providerTransactionId
        ∈ once.map (fun u => u.providerTransactionId) := by
      have h1 : t.providerTransactionId
          ∈ (txns.map (fun u => u.providerTransactionId)).toFinset :=
        List.mem_toFinset.mpr (List.mem_map_of_mem _ ht)
      exact List.mem_toFinset.mp (hfin ▸ h1)
    obtain ⟨u, hu, he⟩ := List.mem_map.mp hmem
    exact ⟨u, hu, he⟩
  · rintro store t ⟨u, hu, _, hk⟩
    rw [show upsertTransactions store [t]
        = if hasConflict store t then store else store ++ [t] from rfl,
      if_pos ((hasConflict_iff store t).mpr ⟨u, hu, hk⟩)]

/-- Closed instance of `upsertTransactions_idempotent_dedup` at a snapshot
with 3 records and 2 distinct natural keys. -/
theorem upsertTransactions_idempotent_dedup_witness :
    (upsertTransactions []
        (normalizeRecords pdNone ugT 200 "a1" [recA, recB, recA])).length = 2 ∧
    ((normalizeRecords pdNone ugT 200 "a1" [recA, recB, recA]).map
        (fun t => (t.accountId, t.providerTransactionId))).dedup.length = 2 ∧
    (2 : Nat) ≤ 3 ∧
    upsertTransactions
        (upsertTransactions []
          (normalizeRecords pdNone ugT 200 "a1" [recA, recB, recA]))
        (normalizeRecords pdNone ugT 200 "a1" [recA, recB, recA])
      = upsertTransactions []
          (normalizeRecords pdNone ugT 200 "a1" [recA, recB, recA]) := by
  have h := upsertTransactions_idempotent_dedup pdNone ugT 200 "a1"
    [recA, recB, recA]
  exact ⟨h.1.trans (by decide), by decide, by decide, h.2.2.1⟩

/-- Rows returned by the lock-then-reread tail of `stealWork` are the locked
versions of table rows: `SYNCING`, stamped with the claim time, all other
row fields untouched. -/
theorem mem_locked_filter (ids : List String) (now : Time)
    (table : List Account) :
    ∀ a ∈ (lockAccounts ids now table).filter
        (fun x => ids.contains x.id),
      a.syncStatus = .syncing ∧ a.lastSyncAttempt = now ∧
      ∃ a0 ∈ table, a0.id = a.id ∧ a.priority = a0.priority ∧
        a.lastSyncedCursor = a0.lastSyncedCursor ∧
        a.lastUpdatedAt = a0.lastUpdatedAt ∧ a.balance = a0.balance ∧
        a.currency = a0.currency ∧ a.userId = a0.userId ∧
        a.provider = a0.provider ∧
        a.externalAccountId = a0.externalAccountId := by
  intro a ha
  obtain ⟨ha', hid⟩ := List.mem_filter.mp ha
  obtain ⟨a0, ha0, hfa⟩ := List.mem_map.mp ha'
  by_cases h0 : ids.contains a0.id = true
  · rw [if_pos h0] at hfa
    subst hfa
    exact ⟨rfl, rfl, a0, ha0, rfl, rfl, rfl, rfl, rfl, rfl, rfl, rfl, rfl⟩
  · rw [if_neg h0] at hfa
    subst hfa
    exact absurd hid h0

/-- C2: `stealWork` selects exactly the up-to-10 highest-priority accounts
among the eligible ones, in priority-descending order, where eligibility is
`PENDING_SYNC`, or `IDLE` older than 6 h, or `SYNCING` attempted more than
1 h ago — so `FAILED` and `FETCHED` accounts are never selected, and any
eligible account left behind has priority at most that of every selected
one. -/
theorem stealWork_selects_top_eligible (now : Time) (table : List Account) :
    (∀ a, eligibleB now a = true ↔
        (a.syncStatus = .pendingSync
          ∨ (a.syncStatus = .idle ∧ a.lastUpdatedAt < now - 21600)
          ∨ (a.syncStatus = .syncing ∧ a.lastSyncAttempt < now - 3600))) ∧
    (∀ a ∈ stealWorkSelect now table,
        eligibleB now a = true ∧ a ∈ table) ∧
    (∀ a ∈ stealWorkSelect now table,
        a.syncStatus ≠ .failed ∧ a.syncStatus ≠ .fetched) ∧
    (stealWorkSelect now table).length
        = min 10 (table.filter (eligibleB now)).length ∧
    List.Sorted prioGe (stealWorkSelect now table) ∧
    (∀ a ∈ table, eligibleB now a = true →
        a ∉ stealWorkSelect now table →
        ∀ b ∈ stealWorkSelect now table, a.priority ≤ b.priority) := by
  have hmem : ∀ a ∈ stealWorkSelect now table,
      eligibleB now a = true ∧ a ∈ table := by
    intro a ha
    have h1 : a ∈ List.insertionSort prioGe (table.filter (eligibleB now)) :=
      List.take_subset _ _ ha
    have h2 : a ∈ table.filter (eligibleB now) :=
      (List.mem_insertionSort prioGe).mp h1
    obtain ⟨ht, he⟩ := List.mem_filter.mp h2
    exact ⟨he, ht⟩
  have hiff : ∀ a, eligibleB now a = true ↔
      (a.syncStatus = .pendingSync
        ∨ (a.syncStatus = .idle ∧ a.lastUpdatedAt < now - 21600)
        ∨ (a.syncStatus = .syncing ∧ a.lastSyncAttempt < now - 3600)) := by
    intro a
    simp only [eligibleB, Bool.or_eq_true, Bool.and_eq_true, beq_iff_eq,
      decide_eq_true_eq]
    tauto
  refine ⟨hiff, hmem, ?_, ?_, ?_, ?_⟩
  · intro a ha
    rcases (hiff a).mp (hmem a ha).1 with h | ⟨h, _⟩ | ⟨h, _⟩ <;>
      simp [h]
  · rw [stealWorkSelect, List.length_take,
      (List.perm_insertionSort prioGe (table.filter (eligibleB now))).length_eq]
  · exact List.Pairwise.sublist (List.take_sublist _ _)
      (List.sorted_insertionSort prioGe (table.filter (eligibleB now)))
  · intro a ha helig hnot b hb
    have hsorted : a ∈ List.insertionSort prioGe (table.filter (eligibleB now)) :=
      (List.mem_insertionSort prioGe).mpr (List.mem_filter.mpr ⟨ha, helig⟩)
    rw [← List.take_append_drop 10
      (List.insertionSort prioGe (table.filter (eligibleB now)))] at hsorted
    rcases List.mem_append.mp hsorted with htake | hdrop
    · exact absurd htake hnot
    · exact (List.sorted_insertionSort prioGe
        (table.filter (eligibleB now))).rel_of_mem_take_of_mem_drop hb hdrop

/-- Closed instance of `stealWork_selects_top_eligible`: the 5 h-stale
account is not eligible, the 7 h-stale one is; `FAILED` is skipped even at
top priority; with 11 eligible accounts the priority-0 one is left behind
and each selected account has at least its priority. -/
theorem stealWork_selects_top_eligible_witness :
    eligibleB 100000 accFresh = false ∧
    eligibleB 100000 accStale = true ∧
    stealWorkSelect 100000 [accFresh, accFail, accStale, accPend]
      = [accPend, accStale] ∧
    (mkAcc "b0" .pendingSync 0 0 0 none) ∈ manyAccs ∧
    eligibleB 0 (mkAcc "b0" .pendingSync 0 0 0 none) = true ∧
    (mkAcc "b0" .pendingSync 0 0 0 none) ∉ stealWorkSelect 0 manyAccs ∧
    (mkAcc "b10" .pendingSync 10 0 0 none) ∈ stealWorkSelect 0 manyAccs ∧
    (mkAcc "b0" .pendingSync 0 0 0 none).priority
      ≤ (mkAcc "b10" .pendingSync 10 0 0 none).priority := by
  refine ⟨by decide, by decide, by decide, by decide, by decide, by decide,
    by decide, ?_⟩
  exact (stealWork_selects_top_eligible 0 manyAccs).2.2.2.2.2
    (mkAcc "b0" .pendingSync 0 0 0 none) (by decide) (by decide) (by decide)
    (mkAcc "b10" .pendingSync 10 0 0 none) (by decide)

/-- C5: every row returned by the `stealWork` claim reflects the post-update
state: `sync_status = SYNCING` and `last_sync_attempt` equal to the claim
time, while priority, cursor, `last_updated_at`, balance, currency and the
identity fields are exactly those of the original table row. -/
theorem stealWork_returns_post_update_rows (now : Time)
    (table : List Account) :
    ∀ a ∈ (stealWork now table).2,
      a.syncStatus = .syncing ∧ a.lastSyncAttempt = now ∧
      ∃ a0 ∈ table, a0.id = a.id ∧ a.priority = a0.priority ∧
        a.lastSyncedCursor = a0.lastSyncedCursor ∧
        a.lastUpdatedAt = a0.lastUpdatedAt ∧ a.balance = a0.balance ∧
        a.currency = a0.currency ∧ a.userId = a0.userId ∧
        a.provider = a0.provider ∧
        a.externalAccountId = a0.externalAccountId := by
  intro a ha
  have ha' : a ∈ (lockAccounts
      ((stealWorkSelect now table).map (fun x => x.id)) now table).filter
      (fun x =>
        ((stealWorkSelect now table).map (fun x => x.id)).contains x.id) := ha
  exact mem_locked_filter _ now table a ha'

/-- Closed instance of `stealWork_returns_post_update_rows` at a singleton
table. -/
theorem stealWork_returns_post_update_rows_witness :
    lockRow 100000 accPend ∈ (stealWork 100000 [accPend]).2 ∧
    (lockRow 100000 accPend).syncStatus = .syncing ∧
    (lockRow 100000 accPend).lastSyncAttempt = 100000 ∧
    ∃ a0 ∈ [accPend], a0.id = (lockRow 100000 accPend).id ∧
      (lockRow 100000 accPend).priority = a0.priority ∧
      (lockRow 100000 accPend).lastSyncedCursor = a0.lastSyncedCursor ∧
      (lockRow 100000 accPend).lastUpdatedAt = a0.lastUpdatedAt ∧
      (lockRow 100000 accPend).balance = a0.balance ∧
      (lockRow 100000 accPend).currency = a0.currency ∧
      (lockRow 100000 accPend).userId = a0.userId ∧
      (lockRow 100000 accPend).provider = a0.provider ∧
      (lockRow 100000 accPend).externalAccountId = a0.externalAccountId := by
  have h := stealWork_returns_post_update_rows 100000 [accPend]
    (lockRow 100000 accPend) (by decide)
  exact ⟨by decide, h.1, h.2.1, h.2.2⟩

/-- The invariant holds at every initial state. -/
theorem inv_init (s : SysState) (h : InitState s) : Inv s := by
  obtain ⟨_, hph, hj⟩ := h
  refine ⟨?_, ?_, ?_, ?_⟩ <;> simp [hph, hj]

/-- The invariant is preserved by every checkpoint-respecting step. -/
theorem inv_step (s : SysState) (l : OpLabel) (s' : SysState)
    (hinv : Inv s) (hs : SeqStep s l s') : Inv s' := by
  obtain ⟨hstep, hres⟩ := hs
  cases hstep with
  | claim hph helig =>
    have hj : s.jobs = [] := by
      by_contra hne
      rcases hinv.2.2.1 hne with h | ⟨_, hfetched⟩
      · rw [hph] at h; cases h
      · simp [eligibleB, hfetched] at helig
    exact ⟨fun _ => ⟨rfl, hj⟩, by simp, by simp [hj], by simp [hj]⟩
  | fetchFail hph =>
    have hj := (hinv.1 hph).2
    exact ⟨by simp, by simp, by simp [hj], by simp [hj]⟩
  | stage hph =>
    obtain ⟨hsync, hj⟩ := hinv.1 hph
    exact ⟨by simp, fun _ => hsync, fun _ => Or.inl rfl, by simp [hj]⟩
  | fetchMark hph =>
    exact ⟨by simp, by simp, fun _ => Or.inr ⟨rfl, rfl⟩, hinv.2.2.2⟩
  | normalize j rest hj' =>
    have hne : s.jobs ≠ [] := by rw [hj']; simp
    rcases hinv.2.2.1 hne with h | ⟨hidle, _⟩
    · exact absurd h (hres (Or.inl rfl))
    have hrest : rest = [] := by
      have hlen := hinv.2.2.2
      rw [hj'] at hlen
      simpa using hlen
    refine ⟨?_, ?_, ?_, ?_⟩ <;> simp [hidle, hrest]
  | dropJob j rest hj' =>
    have hne : s.jobs ≠ [] := by rw [hj']; simp
    rcases hinv.2.2.1 hne with h | ⟨hidle, _⟩
    · exact absurd h (hres (Or.inr rfl))
    have hrest : rest = [] := by
      have hlen := hinv.2.2.2
      rw [hj'] at hlen
      simpa using hlen
    refine ⟨?_, ?_, ?_, ?_⟩ <;> simp [hidle, hrest]
  | restart =>
    refine ⟨?_, ?_, ?_, ?_⟩ <;> simp
  | clock =>
    exact hinv

/-- Every state reachable under the checkpoint-respecting interleaving
satisfies the invariant. -/
theorem inv_reachSeq (s : SysState) (h : ReachSeq s) : Inv s := by
  induction h with
  | init s h => exact inv_init s h
  | next s l s' _ hs ih => exact inv_step s l s' ih hs

/-- C3 (amended): every `sync_status` change performed by a core operation
on a reachable state is an edge of the §4.3 transition table — PROVIDED the
normalizer consumes each job only after the fetcher's FETCHED checkpoint for
it (the spec's intended ordering); the staleness guard moreover holds at
every `IDLE`-sourced claim.  Without that proviso the claim fails, because
`processAccount` pushes the job before checkpointing: see the
counterexample, where `finalizeAccount` runs on a still-`SYNCING` account.
(The `SYNCING → FAILED` edge is never actually performed — the failure mark
is a failing statement, claim C6.) -/
theorem syncStatus_changes_follow_table (s : SysState) (l : OpLabel)
    (s' : SysState) (hr : ReachSeq s) (hs : SeqStep s l s')
    (hchg : s.acc.syncStatus ≠ s'.acc.syncStatus) :
    tableEdge s.acc.syncStatus s'.acc.syncStatus ∧
    (s.acc.syncStatus = .idle → s.acc.lastUpdatedAt < s.now - 21600) := by
  have hinv := inv_reachSeq s hr
  obtain ⟨hstep, hres⟩ := hs
  cases hstep with
  | claim hph helig =>
    have helig' : s.acc.syncStatus = .pendingSync
        ∨ (s.acc.syncStatus = .idle ∧ s.acc.lastUpdatedAt < s.now - 21600)
        ∨ (s.acc.syncStatus = .syncing
            ∧ s.acc.lastSyncAttempt < s.now - 3600) := by
      simpa [eligibleB, Bool.or_eq_true, Bool.and_eq_true, beq_iff_eq,
        decide_eq_true_eq, or_assoc] using helig
    rcases helig' with h | ⟨h, hlt⟩ | ⟨h, _⟩
    · refine ⟨Or.inl ⟨Or.inr (Or.inl h), rfl⟩, fun hidle => ?_⟩
      rw [h] at hidle; cases hidle
    · exact ⟨Or.inl ⟨Or.inl h, rfl⟩, fun _ => hlt⟩
    · exact absurd h hchg
  | fetchFail hph => exact absurd rfl hchg
  | stage hph => exact absurd rfl hchg
  | fetchMark hph =>
    have hsync := hinv.2.1 hph
    refine ⟨Or.inr (Or.inl ⟨hsync, rfl⟩), fun hidle => ?_⟩
    rw [hsync] at hidle; cases hidle
  | normalize j rest hj' =>
    have hne : s.jobs ≠ [] := by rw [hj']; simp
    rcases hinv.2.2.1 hne with h | ⟨_, hfetched⟩
    · exact absurd h (hres (Or.inl rfl))
    · refine ⟨Or.inr (Or.inr (Or.inr ⟨hfetched, rfl⟩)), fun hidle => ?_⟩
      rw [hfetched] at hidle; cases hidle
  | dropJob j rest hj' => exact absurd rfl hchg
  | restart => exact absurd rfl hchg
  | clock => exact absurd rfl hchg

/-- Closed instance of `syncStatus_changes_follow_table` at the claim of a
concrete `PENDING_SYNC` account. -/
theorem syncStatus_changes_follow_table_witness :
    ReachSeq cexS0 ∧ SeqStep cexS0 .claimOp cexS1 ∧
    cexS0.acc.syncStatus ≠ cexS1.acc.syncStatus ∧
    tableEdge cexS0.acc.syncStatus cexS1.acc.syncStatus := by
  have h0 : ReachSeq cexS0 := ReachSeq.init _ ⟨Or.inr rfl, rfl, rfl⟩
  have hs : SeqStep cexS0 .claimOp cexS1 :=
    ⟨Step.claim cexS0 rfl (by decide), by decide⟩
  exact ⟨h0, hs, by decide,
    (syncStatus_changes_follow_table cexS0 .claimOp cexS1 h0 hs
      (by decide)).1⟩

/-- C3 (counterexample to the unamended claim): under the code's actual step
order — job pushed to the queue before the FETCHED checkpoint — the state
`cexS2` is reachable, and there the normalizer's `finalizeAccount` performs
`SYNCING → IDLE`, which is not an edge of the §4.3 table. -/
theorem syncStatus_offTable_counterexample :
    Reach cexS2 ∧ Step cexS2 .normalizeOp cexS3 ∧
    cexS2.acc.syncStatus = .syncing ∧ cexS3.acc.syncStatus = .idle ∧
    ¬ tableEdge .syncing .idle := by
  refine ⟨?_, ?_, rfl, rfl, ?_⟩
  · have h0 : InitState cexS0 := ⟨Or.inr rfl, rfl, rfl⟩
    have s1 : Step cexS0 .claimOp cexS1 := Step.claim cexS0 rfl (by decide)
    have s2 : Step cexS1 .stageOp cexS2 := Step.stage cexS1 rfl
    exact Reach.next _ _ _ (Reach.next _ _ _ (Reach.init _ h0) s1) s2
  · exact Step.normalize cexS2 (mkJob (claimRowUpd 1000 cexAcc) 1000) [] rfl
  · rintro (⟨_, h⟩ | ⟨_, h⟩ | ⟨_, h⟩ | ⟨h, _⟩) <;> cases h

end Ingestion
